import Mathlib

/-!
Verification of the Arch/CachyOS repository-monitor analysis pipeline
(`arch_monitor.py`, class `ArchRepoMonitor`, version 8.3).

The pipeline is shallowly embedded: Python strings become `String`
(character lists), Python `datetime` values become integer timestamps
(seconds, only their ordering and differences are used), Python `set`
fields become `Finset String`, Python float scores become exact
rationals `ℚ` (the decimal literals of the source are exact decimal
fractions), and the risk aggregator — whose time decay is a
transcendental power `0.92 ** fractional_days` — is embedded over `ℝ`.
Text matching follows Python semantics for ASCII text: `str.lower`,
substring membership (`in`), `\w`/whitespace character classes and the
concrete regular expressions of the source are implemented directly
over character lists.
-/

set_option linter.unusedVariables false

namespace ArchMonitor

/-! ### Basic string machinery

`containsStr needle hay` is Python's `needle in hay` substring test.
-/

/-- Python `str.lower` (ASCII), done characterwise. `String.toLower` is
extensionally the same but is defined by well-founded recursion on byte
positions, which the kernel cannot evaluate; this charwise form keeps every
definition kernel-computable. -/
def strLower (s : String) : String :=
  String.mk (s.data.map Char.toLower)

/-- Python `s[:n]` (by codepoints). -/
def strTake (s : String) (n : ℕ) : String :=
  String.mk (s.data.take n)

/-- Python `needle in hay` on lists of characters. -/
def hasSub (needle : List Char) : List Char → Bool
  | [] => needle.isEmpty
  | c :: rest => needle.isPrefixOf (c :: rest) || hasSub needle rest

/-- Python `needle in hay` for strings. -/
def containsStr (needle hay : String) : Bool :=
  hasSub needle.data hay.data

/-- Python regex `\w` character class, ASCII fragment: alphanumeric or underscore. -/
def isWordChar (c : Char) : Bool :=
  c.isAlphanum || c == '_'

/-- ASCII lowercase letter `[a-z]`. -/
def isLowerAZ (c : Char) : Bool :=
  97 ≤ c.toNat && c.toNat ≤ 122

/-- Splitting a character list at whitespace runs, discarding empty pieces:
Python `str.split()` (ASCII whitespace). -/
def splitWsAux (cur : List Char) : List Char → List (List Char)
  | [] => if cur.isEmpty then [] else [cur.reverse]
  | c :: rest =>
    if c.isWhitespace then
      if cur.isEmpty then splitWsAux [] rest
      else cur.reverse :: splitWsAux [] rest
    else splitWsAux (c :: cur) rest

/-- Python `str.split()` on whitespace. -/
def splitWs (s : List Char) : List (List Char) :=
  splitWsAux [] s

/-! ### Keyword configuration (`self.config`, lines 62-161 of the source) -/

def problemKeywords : List String :=
  ["broken", "break", "fails", "failure", "error", "bug", "regression", "downgrade",
   "corrupt", "crash", "segfault", "freeze", "hangs", "stalled", "unstable",
   "artifacting", "stuttering", "glitch", "failed to start", "doesn\x27t launch", "not working",
   "issue", "problematic", "misbehaving", "not starting", "no longer works"]

def criticalBootFailure : List String :=
  ["unable to boot", "kernel panic", "unbootable", "system crash", "no boot",
   "black screen", "data loss", "corruption", "bricked",
   "disappear from bios", "ssd disappear", "nvme disappear", "not detected in bios",
   "/sbin/init does not exist", "boot loop", "stuck on boot", "no display",
   "no output", "fails to boot", "boot failure", "bricked my"]

def kernelFailureTriggers : List String :=
  ["module broken", "modules broken", "module fails", "modules fail", "modules are broken",
   "kernel fails to build", "kernel fails to load", "kernel module broken"]

def helpIndicators : List String :=
  ["help me", "can anyone help", "my journalctl", "dmesg log", "my last boot log", "what am i doing wrong",
   "pastebin.com", "0x0.st", "hastebin.com", "termbin.com", "my config is", "my log", "my logs",
   "help", "noob", "newbie", "new to arch", "new to linux", "how to", "tutorial", "guide", "how do i",
   "trying to", "question about", "can i"]

def debugKeywords : List String :=
  ["journalctl", "dmesg", "pacman.log", "backtrace", "core dump", "strace", "bisect"]

def explicitFixMarkers : List String :=
  ["[solved]", "(solved)", "[решено]", "fs#", "[fix]", "[patched]", "workaround for"]

def fixKeywords : List String :=
  ["fix", "fixed", "patch", "patched", "workaround", "resolved", "solution"]

def strongPositive : List String :=
  ["adds support", "enables support", "lands support", "readies support", "ships with",
   "introduces", "lands", "merges", "merged", "enables", "adds", "release",
   "improvement", "improves", "support for", "is now on", "is now available",
   "has been released", "announcing", "released"]

def discussionKeywords : List String :=
  ["why is", "is it just me", "what do you think", "thoughts on", "experience with",
   "discussion", "poll", "review", "switched to", "journey", "appreciation",
   "dotfiles", "love", "amazing", "enjoying", "goodbye windows", "finally happened",
   "hello everyone", "welcome to", "showcase", "my setup", "my rice", "post your",
   "official thread", "megathread", "weekly thread", "guide", "tutorial", "should i use"]

def userSpaceApps : List String :=
  ["steam", "discord", "lutris", "heroic", "blender", "kdenlive", "obs", "vlc", "firefox",
   "thunderbird", "game", "elden ring", "cyberpunk", "wps-office", "libreoffice", "wine", "proton"]

/-- `config['keywords']['semantic_groups']`: topic name with its keyword phrases. -/
def semanticGroupDefs : List (String × List String) :=
  [("storage", ["ssd", "nvme", "hdd", "disk", "btrfs", "ext4", "filesystem", "mount", "partition"]),
   ("network", ["wifi", "wi-fi", "ethernet", "network", "connect", "dhcp", "dns", "r8168", "mt7922", "bluetooth"]),
   ("graphics", ["nvidia", "amdgpu", "intel", "mesa", "wayland", "xorg", "glitch", "artifacting", "tearing", "hdr", "compositor", "display", "monitor", "resolution", "hyprland", "kde", "gnome", "plasma"]),
   ("audio", ["pipewire", "pulseaudio", "alsa", "sound", "audio", "speaker", "headphone"]),
   ("kernel", ["kernel", "linux", "module", "dkms", "panic", "lts", "zen", "cachyos", "init", "ramdisk", "suspend", "wake"]),
   ("boot", ["boot", "grub", "systemd-boot", "uefi", "bios", "mkinitcpio", "bricked"]),
   ("system", ["systemd", "glibc", "pacman", "dbus", "base"])]

def semanticGroupNames : List String :=
  semanticGroupDefs.map (fun g => g.1)

/-- Keys of `config['packages']['weights']` in insertion order
(`self.all_known_packages`; the `'default'` key is part of the dict and
hence of the list, exactly as in the source). -/
def allKnownPackages : List String :=
  ["glibc", "grub", "systemd", "linux", "linux-lts", "linux-zen", "linux-hardened",
   "pacman", "mkinitcpio", "base", "filesystem", "dbus", "linux-cachyos",
   "cachyos-settings", "cachy-sched", "bore-sched", "cachyos-ananicy-rules-git",
   "cachyos-grub-theme", "cachyos-hooks", "mesa", "nvidia", "nvidia-dkms", "amdgpu",
   "wayland", "xorg-server", "plasma", "pipewire", "default"]

def kernelPackages : List String :=
  ["linux", "linux-lts", "linux-zen", "linux-hardened", "linux-cachyos"]

def criticalSystemPackages : List String :=
  ["systemd", "glibc", "grub", "pacman", "filesystem", "base", "mkinitcpio"]

def criticalCachyosPackages : List String :=
  ["cachy-sched", "bore-sched"]

def importantPackages : List String :=
  ["mesa", "nvidia", "nvidia-dkms", "amdgpu", "wayland", "pipewire", "plasma"]

def officialSources : List String :=
  ["Arch Linux News", "Arch Linux Bugs", "CachyOS Blog", "CachyOS Kernel Issues", "Arch Linux Security"]

def communitySources : List String :=
  ["Reddit r/archlinux", "Arch Forums", "Phoronix"]

/-- Base stop words of `self.master_stop_list` before the keyword update loop. -/
def masterStopBase : List String :=
  ["a", "an", "the", "it", "is", "to", "for", "in", "on", "with", "and", "or", "if", "using",
   "my", "me", "from", "format", "then", "that", "this", "after", "before", "you",
   "main", "core", "extra", "testing", "cachyos", "so"]

/-- `self.master_stop_list`: the base words updated with every keyword category.
Iterating `config['keywords'].items()` also visits the `semantic_groups`
entry, whose value is a dict, so `update` adds its KEYS (the seven group
names) — reproduced here. Only membership is ever used, so a list with
duplicates models the Python set faithfully. -/
def masterStopList : List String :=
  masterStopBase ++ problemKeywords ++ criticalBootFailure ++ kernelFailureTriggers ++
    helpIndicators ++ debugKeywords ++ explicitFixMarkers ++ fixKeywords ++
    strongPositive ++ discussionKeywords ++ userSpaceApps ++ semanticGroupNames

def commonWordStoppers : List String :=
  ["etc", "but", "needs", "both", "top", "honor", "layers", "decrypted", "some", "of"]

/-! ### Title similarity (`_get_title_similarity`, lines 386-393) -/

/-- The word-token set of a title: lower-case, delete characters that are
neither word characters nor whitespace (regex `re.sub(r'[^\w\s]', '', ·)`),
split on whitespace, collect into a set. -/
def wordsOf (t : String) : Finset String :=
  ((splitWs ((strLower t).data.filter (fun c => isWordChar c || c.isWhitespace))).map
    (fun w => String.mk w)).toFinset

/-- Jaccard similarity of two titles (`_get_title_similarity`).
Returns `0.0` when either word set is empty, otherwise
`|words1 ∩ words2| / |words1 ∪ words2|`. -/
def titleSimilarity (t1 t2 : String) : ℚ :=
  let words1 := wordsOf t1
  let words2 := wordsOf t2
  if words1 = ∅ ∨ words2 = ∅ then 0
  else ((words1 ∩ words2).card : ℚ) / ((words1 ∪ words2).card : ℚ)

/-! ### Semantic tagging (`_get_semantic_groups`, lines 232-235) -/

/-- Topic tags whose keyword lists hit the lower-cased text. -/
def getSemanticGroups (text : String) : Finset String :=
  ((semanticGroupDefs.filter
      (fun g => g.2.any (fun k => containsStr k (strLower text)))).map (fun g => g.1)).toFinset

/-! ### Package extraction (`_extract_packages`, lines 237-254)

Three regex searches over the lower-cased text are modelled directly:

* a whole-word search `\b<pkg>\b` for each known package (all package
  names start and end with word characters, so both `\b` reduce to
  "adjacent character, if any, is not a word character");
* `re.findall` of
  `(?:package|updating|...|on)\s+([a-z0-9][a-z0-9.\-_]+)` with Python's
  leftmost, alternation-ordered, non-overlapping scan (the `\s+` run is
  forced maximal because token characters are never whitespace);
* `re.findall` of `\b([a-z-]{3,}-git|[a-z]{3,}-dkms|[a-z]{2,}hd)\b`,
  whose greedy repetitions backtrack from the longest feasible length.

The scans consume at least one character per step, so recursion on a
fuel equal to the text length computes the full (unbounded) scan. -/

/-- Whole-word occurrence of `pat` in `s` when `pat` starts and ends with a
word character: some position where `pat` matches with non-word (or absent)
neighbours on both sides. `prev` is the character before the current
position. -/
def wbSearchAux (pat : List Char) : Option Char → List Char → Bool
  | _, [] => false
  | prev, c :: rest =>
    (pat.isPrefixOf (c :: rest) &&
      (match prev with
       | none => true
       | some p => !isWordChar p) &&
      (match (c :: rest).drop pat.length with
       | [] => true
       | d :: _ => !isWordChar d)) ||
    wbSearchAux pat (some c) rest

/-- `re.search(r'\b' + re.escape pat + r'\b', s)` for word-delimited `pat`. -/
def wordBoundarySearch (pat : List Char) (s : List Char) : Bool :=
  wbSearchAux pat none s

/-- Trigger phrases of the first `findall` pattern, in alternation order. -/
def triggerPhrases : List String :=
  ["package", "updating", "installing", "downgrade", "fails with", "issue with",
   "problem with", "after updating", "update of", "update to", "on"]

/-- First character class `[a-z0-9]` of the captured token. -/
def isTokenStart (c : Char) : Bool :=
  isLowerAZ c || c.isDigit

/-- Continuation class `[a-z0-9.\-_]` of the captured token. -/
def isTokenMore (c : Char) : Bool :=
  isLowerAZ c || c.isDigit || c == '.' || c == '-' || c == '_'

/-- Try to match `trigger ++ \s+ ++ token` at the head of `s`; on success
return the captured token and the unconsumed rest of the text. -/
def tryTrigger (t : List Char) (s : List Char) : Option (List Char × List Char) :=
  if t.isPrefixOf s then
    let s1 := s.drop t.length
    let ws := s1.takeWhile Char.isWhitespace
    if ws.isEmpty then none
    else
      match s1.drop ws.length with
      | [] => none
      | c :: s3 =>
        if isTokenStart c then
          let more := s3.takeWhile isTokenMore
          if more.isEmpty then none
          else some (c :: more, s3.drop more.length)
        else none
  else none

/-- Try every trigger alternative, in order, at the current position. -/
def matchTriggerAt : List (List Char) → List Char → Option (List Char × List Char)
  | [], _ => none
  | t :: ts, s =>
    match tryTrigger t s with
    | some r => some r
    | none => matchTriggerAt ts s

/-- Fuelled leftmost non-overlapping scan of the trigger pattern
(`re.findall`, first pattern). Each step consumes at least one character,
so fuel `s.length` suffices. -/
def scanTriggersAux : ℕ → List Char → List (List Char)
  | 0, _ => []
  | n + 1, s =>
    match matchTriggerAt (triggerPhrases.map (fun t => t.data)) s with
    | some (tok, rest) => tok :: scanTriggersAux n rest
    | none =>
      match s with
      | [] => []
      | _ :: r => scanTriggersAux n r

/-- All captures of the first `findall` pattern. -/
def scanTriggers (s : List Char) : List (List Char) :=
  scanTriggersAux s.length s

/-- Is there a `\b` between `prev` (the character before the match, absent at
the start of the text) and `first` (the first matched character)? -/
def boundaryBefore (prev : Option Char) (first : Char) : Bool :=
  match prev with
  | none => isWordChar first
  | some p => (isWordChar p && !isWordChar first) || (!isWordChar p && isWordChar first)

/-- `\b` between the last matched character (always a word character for this
pattern) and the rest of the text. -/
def boundaryAfter : List Char → Bool
  | [] => true
  | d :: _ => !isWordChar d

/-- Greedy repetition with backtracking: the largest `m` with
`mn ≤ m ≤ m0` such that the literal suffix `sfx` matches at offset `m` of
`s` and a word boundary follows the whole match. -/
def searchRepLen (s sfx : List Char) (mn : ℕ) : ℕ → Option ℕ
  | 0 =>
    if mn = 0 && sfx.isPrefixOf s && boundaryAfter (s.drop sfx.length) then some 0 else none
  | m + 1 =>
    if mn ≤ m + 1 && sfx.isPrefixOf (s.drop (m + 1)) &&
        boundaryAfter (s.drop (m + 1 + sfx.length)) then some (m + 1)
    else searchRepLen s sfx mn m

/-- Try one alternative `cls{mn,}` ++ `sfx` of the second `findall` pattern at
the current position, with the leading `\b` checked against `prev`. Returns
the whole captured token and the rest of the text. -/
def tryRepAlt (cls : Char → Bool) (sfx : List Char) (mn : ℕ) (prev : Option Char)
    (s : List Char) : Option (List Char × List Char) :=
  match s with
  | [] => none
  | c :: _ =>
    if cls c && boundaryBefore prev c then
      let run := (s.takeWhile cls).length
      match searchRepLen s sfx mn run with
      | some m => some (s.take (m + sfx.length), s.drop (m + sfx.length))
      | none => none
    else none

/-- One position of `\b([a-z-]{3,}-git|[a-z]{3,}-dkms|[a-z]{2,}hd)\b`:
alternatives tried in order. -/
def matchPat3At (prev : Option Char) (s : List Char) : Option (List Char × List Char) :=
  match tryRepAlt (fun c => isLowerAZ c || c == '-') "-git".data 3 prev s with
  | some r => some r
  | none =>
    match tryRepAlt isLowerAZ "-dkms".data 3 prev s with
    | some r => some r
    | none => tryRepAlt isLowerAZ "hd".data 2 prev s

/-- Fuelled leftmost non-overlapping scan of the second `findall` pattern. -/
def scanPat3Aux : ℕ → Option Char → List Char → List (List Char)
  | 0, _, _ => []
  | n + 1, prev, s =>
    match matchPat3At prev s with
    | some (tok, rest) => tok :: scanPat3Aux n (tok.getLast?) rest
    | none =>
      match s with
      | [] => []
      | c :: r => scanPat3Aux n (some c) r

/-- All captures of the second `findall` pattern. -/
def scanPat3 (s : List Char) : List (List Char) :=
  scanPat3Aux s.length none s

/-- Characters stripped by `pkg.strip('.,:;!?()[]\x7b\x7d')`. -/
def stripCharList : List Char :=
  ['.', ',', ':', ';', '!', '?', '(', ')', '[', ']', Char.ofNat 123, Char.ofNat 125]

/-- Python `str.strip` with the punctuation set above. -/
def stripPunct (p : String) : String :=
  String.mk (((p.data.dropWhile (fun c => c ∈ stripCharList)).reverse.dropWhile
    (fun c => c ∈ stripCharList)).reverse)

/-- Python `str.isdigit` (ASCII): nonempty and all digits. -/
def isDigitStr (p : String) : Bool :=
  !p.data.isEmpty && p.data.all Char.isDigit

/-- `_extract_packages`: union of the whole-word known-package hits with the
cleaned, stop-word- and digit-filtered candidates of the two `findall`
patterns. The Python function returns `list(final_packages)` of a set;
every downstream use is order-independent, so the set itself is the model. -/
def extractPackages (text : String) : Finset String :=
  let t := (strLower text).data
  let known := (allKnownPackages.filter (fun p => wordBoundarySearch p.data t)).toFinset
  let potential := ((scanTriggers t).map (fun w => String.mk w)).toFinset
  let morePotential := ((scanPat3 t).map (fun w => String.mk w)).toFinset
  let cleaned := (potential ∪ morePotential).image stripPunct
  let filtered := cleaned.filter
    (fun p => p ∉ masterStopList ∧ p ∉ commonWordStoppers ∧ ¬isDigitStr p)
  known ∪ filtered

/-! ### Data classes (lines 20-51)

`datetime` fields are integer timestamps in seconds (only ordering and
differences are used). `affected_packages` is produced as `list(set(...))`
and consumed only through set operations and maxima, so the set itself is
the model. -/

structure RepoIssue where
  source : String
  title : String
  description : String
  severity : String
  date : ℤ
  url : String
  affected_packages : Finset String
  confidence_score : ℤ
  semantic_groups : Finset String
deriving DecidableEq

structure PotentialFix where
  source : String
  title : String
  date : ℤ
  url : String
  mentioned_packages : Finset String
  semantic_groups : Finset String
deriving DecidableEq

structure ResolvedIssue where
  issue : RepoIssue
  fix : PotentialFix
  correlation_score : ℚ
deriving DecidableEq

/-! ### Severity classification (`_get_severity`, lines 173-230)

The function threads the triple `(final_severity, reason, is_critical)`
through its rule blocks; each contiguous block of the source is one stage
below. Interpolated reason strings are reproduced except that the
single-quote characters around interpolated values are omitted. -/

structure SevState where
  sev : String
  reason : String
  isCrit : Bool
deriving DecidableEq

/-- Lines 199-210: escalation by package category when the critical path was
not taken (the final `elif has_problem` is always reached with
`has_problem = true` on this path, but the fall-through keeps the incoming
state exactly as the Python conditional does). -/
def sevEscalate (pkgs : Finset String) (isKernelRelated hasProblem : Bool)
    (st : SevState) : SevState :=
  let hasCriticalSystem := criticalSystemPackages.any (fun p => p ∈ pkgs)
  let hasCachyosPkg := criticalCachyosPackages.any (fun p => p ∈ pkgs)
  let hasImportant := importantPackages.any (fun p => p ∈ pkgs)
  if hasCriticalSystem || hasCachyosPkg || (isKernelRelated && hasProblem) then
    ⟨"high", "Затрагивает критический системный пакет или ядро.", st.isCrit⟩
  else if hasImportant then
    ⟨"medium", "Затрагивает важный (не системный) пакет.", st.isCrit⟩
  else if hasProblem then
    ⟨"low", "Найдено ключевое слово о проблеме, но не связано с важными пакетами.", st.isCrit⟩
  else st

/-- Lines 212-219: downgrade of `high`/`medium` for application-specific
problems with no critical system package implicated. -/
def sevAppDowngrade (text : String) (pkgs : Finset String) (st : SevState) : SevState :=
  let isAppSpecific := userSpaceApps.any (fun a => containsStr a text)
  if (st.sev = "high" ∨ st.sev = "medium") ∧ isAppSpecific then
    let isCriticalInvolved := criticalSystemPackages.any (fun p => p ∈ pkgs)
    if ¬isCriticalInvolved then
      let appName := (userSpaceApps.find? (fun a => containsStr a text)).getD "app"
      let newSev := if st.sev = "high" then "medium" else "low"
      ⟨newSev,
       "Серьезность понижена до " ++ newSev ++
         "; проблема, вероятно, связана с приложением " ++ appName ++
         ", а не с системным компонентом.", st.isCrit⟩
    else st
  else st

/-- Lines 221-228: downgrade for help requests outside the critical path. -/
def sevHelpAdjust (text : String) (st : SevState) : SevState :=
  let isHelpRequest := helpIndicators.any (fun k => containsStr k text)
  if isHelpRequest ∧ ¬st.isCrit then
    if st.sev = "high" then
      ⟨"medium", st.reason ++ " (Пост похож на просьбу о помощи, но проблема все еще серьезная).",
       st.isCrit⟩
    else if st.sev = "medium" then
      ⟨"low", "Серьезность понижена до low; пост похож на просьбу о помощи.", st.isCrit⟩
    else st
  else st

/-- Lines 175-185: the critical-boot-failure rule, with the community
one-tier discount. -/
def sevBoot (text source : String) : SevState :=
  match criticalBootFailure.find? (fun k => containsStr k text) with
  | some k =>
    if source ∈ communitySources then
      ⟨"high", "Найдена фраза о серьезной проблеме: " ++ k ++ ". Источник - сообщество.", true⟩
    else
      ⟨"critical", "Найдена критическая фраза в официальном источнике: " ++ k ++ ".", true⟩
  | none => ⟨"low", "Нет явных проблем.", false⟩

/-- Lines 191-193: kernel-module-failure upgrade outside the critical path.
The impossible `Option.getD` default in the reason is only taken when
`kernelKw.isSome` is false, i.e. never. -/
def sevKernelUpgrade (isKernelRelated : Bool) (kernelKw : Option String)
    (st : SevState) : SevState :=
  if ¬st.isCrit ∧ isKernelRelated ∧ kernelKw.isSome then
    ⟨"critical", "Обнаружен сбой модуля ядра: " ++ kernelKw.getD "", true⟩
  else st

/-- `_get_severity`. The `title` parameter is accepted and unused, exactly as
in the source. -/
def getSeverity (text : String) (title : String) (source : String) : String × String :=
  let st1 := sevBoot text source
  let pkgs := extractPackages text
  let isKernelRelated := kernelPackages.any (fun p => p ∈ pkgs)
  let kernelKw := kernelFailureTriggers.find? (fun k => containsStr k text)
  let st2 := sevKernelUpgrade isKernelRelated kernelKw st1
  let hasProblem := problemKeywords.any (fun k => containsStr k text)
  if ¬hasProblem ∧ ¬st2.isCrit then
    ("low", "Не найдено ключевых слов, связанных с проблемой.")
  else
    let st3 := if ¬st2.isCrit then sevEscalate pkgs isKernelRelated hasProblem st2 else st2
    let st4 := sevAppDowngrade text pkgs st3
    let st5 := sevHelpAdjust text st4
    (st5.sev, st5.reason)

/-! ### Record building (`_is_potential_fix` lines 256-262,
`_process_entry` lines 264-294) -/

/-- `_is_potential_fix`: explicit markers are looked up in the (lower-cased)
title only; fix-action keywords in the full text. -/
def isPotentialFix (title fullText : String) : Bool :=
  explicitFixMarkers.any (fun m => containsStr m title) ||
  fixKeywords.any (fun k => containsStr k fullText)

/-- `_process_entry`: one raw record becomes a fix, an issue, or nothing. -/
def processEntry (name title fullContent : String) (date : ℤ) (url : String)
    (baseConfidence : ℤ) : Option RepoIssue × Option PotentialFix :=
  let lowerTitle := strLower title
  let fullText := strLower title ++ " " ++ strLower fullContent
  let packages := extractPackages fullText
  let semanticGroups := getSemanticGroups fullText
  if isPotentialFix lowerTitle fullText then
    (none, some ⟨name, title, date, url, packages, semanticGroups⟩)
  else if strongPositive.any (fun k => containsStr k fullText) then (none, none)
  else if discussionKeywords.any (fun k => containsStr k fullText) then (none, none)
  else
    let sr := getSeverity fullText title name
    if sr.1 ≠ "low" then
      let confidence :=
        if debugKeywords.any (fun k => containsStr k fullText) then
          min 100 (baseConfidence + 15)
        else baseConfidence
      (some ⟨name, title, strTake fullContent 300 ++ "...", sr.1, date, url, packages,
             confidence, semanticGroups⟩, none)
    else (none, none)

/-! ### Deduplication (`_deduplicate`, lines 395-409)

The source sorts in place (stable, descending ranking key) and then keeps
an item iff it is not `> 0.7`-similar to a previously kept title.
`List.insertionSort` with `fun a b => key b ≤ key a` is a stable
descending sort, hence extensionally identical to Python's. -/

/-- The greedy keep/drop pass over the sorted items (`seen` holds the titles
of previously kept items). -/
def dedupCore {α : Type} (ttl : α → String) : List α → List String → List α
  | [], _ => []
  | x :: rest, seen =>
    if seen.any (fun s => titleSimilarity (ttl x) s > 0.7) then dedupCore ttl rest seen
    else x :: dedupCore ttl rest (seen ++ [ttl x])

/-- `_deduplicate` on a list of `RepoIssue` (ranking key: confidence,
descending). -/
def deduplicateIssues (items : List RepoIssue) : List RepoIssue :=
  dedupCore (fun i => i.title)
    (List.insertionSort (fun a b => b.confidence_score ≤ a.confidence_score) items) []

/-- `_deduplicate` on a list of `PotentialFix` (ranking key: date,
descending). -/
def deduplicateFixes (items : List PotentialFix) : List PotentialFix :=
  dedupCore (fun f => f.title)
    (List.insertionSort (fun a b => b.date ≤ a.date) items) []

/-! ### Correlation (`_calculate_correlation_score` lines 411-437,
`_correlate_and_filter` lines 439-478) -/

/-- Weighted correlation score: 50% title similarity, 30% package overlap,
20% context modifier, clamped to `[0, 1]`. -/
def calcCorrelationScore (issue : RepoIssue) (fix : PotentialFix) : ℚ :=
  let titleSim := titleSimilarity issue.title fix.title
  let issuePkgs := issue.affected_packages
  let fixPkgs := fix.mentioned_packages
  let pkgOverlapScore : ℚ :=
    if issuePkgs ≠ ∅ ∧ fixPkgs ≠ ∅ then
      let overlap := (issuePkgs ∩ fixPkgs).card
      let overlap2 :=
        if allKnownPackages.any (fun p => p ∈ issuePkgs ∩ fixPkgs) then overlap + 1 else overlap
      min 1 ((overlap2 : ℚ) * 0.5)
    else 0
  let contextModifier : ℚ :=
    if (issue.semantic_groups ∩ fix.semantic_groups) ≠ ∅ then
      0.5 + ((issue.semantic_groups ∩ fix.semantic_groups).card : ℚ) * 0.25
    else if "kernel" ∈ fix.semantic_groups ∨ "system" ∈ fix.semantic_groups then 0.25
    else if issue.semantic_groups ≠ ∅ ∧ fix.semantic_groups ≠ ∅ then -0.5
    else 0
  max 0 (min 1 (titleSim * 0.5 + pkgOverlapScore * 0.3 + contextModifier * 0.2))

/-- Alternatives of `(?:FS#|issues/|task_id=|id=)` in order. At any one
position at most one alternative can match (their first two characters
differ pairwise), so ordered trial is exact. -/
def refIdMarkers : List (List Char) :=
  ["FS#".data, "issues/".data, "task_id=".data, "id=".data]

/-- Try each reference marker at the current position; a marker only
matches when at least one digit follows (`(\d+)` greedy). -/
def tryRefMarkerAt : List (List Char) → List Char → Option (List Char)
  | [], _ => none
  | m :: ms, s =>
    if m.isPrefixOf s then
      let ds := (s.drop m.length).takeWhile Char.isDigit
      if ds.isEmpty then tryRefMarkerAt ms s else some ds
    else tryRefMarkerAt ms s

/-- Leftmost match of `(?:FS#|issues/|task_id=|id=)(\d+)`. -/
def extractRefIdAux : List Char → Option (List Char)
  | [] => none
  | c :: rest =>
    match tryRefMarkerAt refIdMarkers (c :: rest) with
    | some ds => some ds
    | none => extractRefIdAux rest

/-- `re.search(r'(?:FS#|issues/|task_id=|id=)(\d+)', issue.url)`, group 1. -/
def extractRefId (url : String) : Option String :=
  (extractRefIdAux url.data).map (fun ds => String.mk ds)

/-- Alternatives of the fix-title reference pattern, lower-cased
(`re.IGNORECASE` is modelled by lower-casing the title). -/
def titleRefMarkers : List (List Char) :=
  ["fixes ".data, "resolves ".data, "closes ".data, "fs#".data, "#".data]

/-- Marker ++ identifier at the current position, followed by `\b` (the
identifier ends in a digit, so the boundary holds iff the next character,
if any, is not a word character). -/
def refCheckAt (m id s : List Char) : Bool :=
  (m ++ id).isPrefixOf s && boundaryAfter (s.drop (m.length + id.length))

/-- Search for `(?:fixes |resolves |closes |FS#|#)<id>\b` anywhere in the
lower-cased title. -/
def titleRefsAux (id : List Char) : List Char → Bool
  | [] => false
  | c :: rest =>
    titleRefMarkers.any (fun m => refCheckAt m id (c :: rest)) || titleRefsAux id rest

/-- `re.search(f'(?:fixes |resolves |closes |FS#|#)<id>\\b', fix.title, re.IGNORECASE)`. -/
def titleRefsId (id : String) (title : String) : Bool :=
  titleRefsAux id.data (strLower title).data

/-- The exact-reference override of `_correlate_and_filter` (lines 450-459):
the issue URL yields an identifier and the fix title references it, or the
identifier occurs in the fix URL. -/
def overrideApplies (issue : RepoIssue) (fix : PotentialFix) : Bool :=
  match extractRefId issue.url with
  | some id => titleRefsId id fix.title || containsStr id fix.url
  | none => false

/-- Per-candidate score inside the fix loop: `1.0` under the override,
else the weighted score. -/
def finalScore (issue : RepoIssue) (fix : PotentialFix) : ℚ :=
  if overrideApplies issue fix then 1 else calcCorrelationScore issue fix

/-- State of the correlator's outer loop: `used_fix_urls` is kept as the
list of consumed URLs (the `Nodup` set-character is proved, not assumed). -/
structure CorState where
  unresolved : List RepoIssue
  resolved : List ResolvedIssue
  usedUrls : List String
deriving DecidableEq

/-- The inner fix loop: fold over the date-sorted fixes carrying
`(best_match_fix, highest_score)`, starting from `(None, threshold)`;
date-ineligible or already consumed fixes are skipped, and the running
best is replaced only on a strictly higher score. -/
def findBestFix (score : PotentialFix → ℚ) (issueDate : ℤ) (used : List String) :
    List PotentialFix → Option PotentialFix × ℚ → Option PotentialFix × ℚ
  | [], acc => acc
  | f :: rest, acc =>
    if f.date < issueDate ∨ f.url ∈ used then findBestFix score issueDate used rest acc
    else if acc.2 < score f then findBestFix score issueDate used rest (some f, score f)
    else findBestFix score issueDate used rest acc

/-- The whole inner loop for one issue: fold over the date-sorted fixes from
`(None, threshold)`. -/
def bestFixFor (thr : ℚ) (fixes : List PotentialFix) (used : List String)
    (issue : RepoIssue) : Option PotentialFix × ℚ :=
  findBestFix (finalScore issue) issue.date used
    (List.insertionSort (fun a b : PotentialFix => a.date ≤ b.date) fixes) (none, thr)

/-- One iteration of the outer issue loop of `_correlate_and_filter`:
`if best_match_fix:` append a `ResolvedIssue` carrying `highest_score` and
consume the fix URL, else record the issue as unresolved. -/
def correlateStep (thr : ℚ) (fixes : List PotentialFix) (st : CorState)
    (issue : RepoIssue) : CorState :=
  match bestFixFor thr fixes st.usedUrls issue with
  | (some f, s) => ⟨st.unresolved, st.resolved ++ [⟨issue, f, s⟩], st.usedUrls ++ [f.url]⟩
  | (none, _) => ⟨st.unresolved ++ [issue], st.resolved, st.usedUrls⟩

/-- `_correlate_and_filter` with the correlation threshold as a parameter
(the source fixes it to `0.65` in a local variable). -/
def correlateWith (thr : ℚ) (issues : List RepoIssue) (fixes : List PotentialFix) :
    List RepoIssue × List ResolvedIssue :=
  let st := (List.insertionSort (fun a b : RepoIssue => a.date ≤ b.date) issues).foldl
    (correlateStep thr fixes) ⟨[], [], []⟩
  (st.unresolved, st.resolved)

/-- `_correlate_and_filter` as shipped: threshold `0.65`. -/
def correlateAndFilter (issues : List RepoIssue) (fixes : List PotentialFix) :
    List RepoIssue × List ResolvedIssue :=
  correlateWith 0.65 issues fixes

/-! ### Risk aggregation (`_analyze_update_safety`, lines 523-564)

The time decay `0.92 ** (seconds / 86400.0)` is a real power with a real
exponent, so this component is embedded over `ℝ` (hence noncomputable);
`now` is the assessment timestamp `datetime.now()`. -/

/-- `config['weights']['severity']` with `.get(·, 0)`. -/
noncomputable def severityBase (s : String) : ℝ :=
  if s = "critical" then 50 else if s = "high" then 25
  else if s = "medium" then 10 else if s = "low" then 0 else 0

/-- `config['weights']['source']` with `.get(·, 1.0)`. -/
noncomputable def sourceTrustWeight (s : String) : ℝ :=
  if s = "Arch Linux News" then 2.0 else if s = "Arch Linux Bugs" then 1.8
  else if s = "CachyOS Blog" then 1.9 else if s = "Arch Linux Security" then 2.2
  else if s = "CachyOS Kernel Issues" then 2.1 else if s = "Phoronix" then 0.85
  else if s = "Reddit r/archlinux" then 0.8 else if s = "Arch Forums" then 0.7 else 1.0

/-- `config['packages']['weights']` with `.get(·, 1.0)`. -/
noncomputable def pkgWeight (p : String) : ℝ :=
  if p = "glibc" then 1.8 else if p = "grub" then 1.8 else if p = "systemd" then 1.6
  else if p = "linux" then 1.5 else if p = "linux-lts" then 1.5 else if p = "linux-zen" then 1.5
  else if p = "linux-hardened" then 1.5 else if p = "pacman" then 1.5
  else if p = "mkinitcpio" then 1.2 else if p = "base" then 1.1
  else if p = "filesystem" then 1.3 else if p = "dbus" then 1.1
  else if p = "linux-cachyos" then 1.7 else if p = "cachyos-settings" then 1.3
  else if p = "cachy-sched" then 1.4 else if p = "bore-sched" then 1.4
  else if p = "cachyos-ananicy-rules-git" then 1.2 else if p = "cachyos-grub-theme" then 1.0
  else if p = "cachyos-hooks" then 1.1 else if p = "mesa" then 1.4
  else if p = "nvidia" then 1.4 else if p = "nvidia-dkms" then 1.4
  else if p = "amdgpu" then 1.3 else if p = "wayland" then 1.2
  else if p = "xorg-server" then 1.2 else if p = "plasma" then 1.1
  else if p = "pipewire" then 1.1 else if p = "default" then 1.0 else 1.0

/-- `max([pkg_weights.get(p, 1.0) for p in packages] or [1.0])`. -/
noncomputable def maxPkgWeight (ps : Finset String) : ℝ :=
  if h : ps.Nonempty then (ps.image pkgWeight).max' (h.image pkgWeight) else 1

/-- The contribution of one unresolved issue to the danger score
(lines 529-547). -/
noncomputable def issueDanger (now : ℤ) (issue : RepoIssue) : ℝ :=
  let baseScore := severityBase issue.severity
  let sourceWeight := sourceTrustWeight issue.source
  let maxW := maxPkgWeight issue.affected_packages
  let isAppSpecific :=
    userSpaceApps.any (fun a => containsStr a (strLower issue.title ++ strLower issue.description))
  let isCriticalInvolved :=
    criticalSystemPackages.any (fun p => p ∈ issue.affected_packages)
  let dampedW :=
    if isAppSpecific ∧ ¬isCriticalInvolved ∧ issue.severity ≠ "critical" then (maxW + 1) / 2
    else maxW
  let timeDecay : ℝ := (0.92 : ℝ) ^ ((((now - issue.date) : ℤ) : ℝ) / 86400)
  baseScore * sourceWeight * ((issue.confidence_score : ℝ) / 100) * timeDecay * dampedW

/-- Total danger score of a list of unresolved issues. -/
noncomputable def dangerScore (now : ℤ) (issues : List RepoIssue) : ℝ :=
  (issues.map (issueDanger now)).sum

/-- Lines 554-557: the threshold ladder mapping the danger score to a level. -/
noncomputable def safetyLevel (d : ℝ) : String :=
  if 100 < d then "DANGEROUS" else if 55 < d then "RISKY"
  else if 25 < d then "CAUTION" else "SAFE"

structure SafetyStatus where
  level : String
  danger_score : ℤ
  critical_issues : ℕ
  high_issues : ℕ
  affected_critical_packages : Finset String

/-- `_analyze_update_safety`. The reported `danger_score` is rounded
(Python's banker's rounding differs from `round` only at exact
half-integers, which no claim touches). -/
noncomputable def analyzeUpdateSafety (now : ℤ) (issues : List RepoIssue) : SafetyStatus :=
  { level := safetyLevel (dangerScore now issues)
    danger_score := round (dangerScore now issues)
    critical_issues := issues.countP (fun i => i.severity == "critical")
    high_issues := issues.countP (fun i => i.severity == "high")
    affected_critical_packages :=
      (issues.filter (fun i => i.severity == "critical" || i.severity == "high")).foldl
        (fun acc i => acc ∪ i.affected_packages.filter (fun p => p ∈ allKnownPackages)) ∅ }

/-! ### Concrete inputs used by witness theorems -/

def issueW : RepoIssue :=
  ⟨"Arch Linux Bugs", "aa bb cc", "", "high", 0, "https://x/issues/482", ∅, 90, ∅⟩

def fixW : PotentialFix :=
  ⟨"CachyOS Blog", "Fixes #482", 5, "https://y/pr/9", ∅, ∅⟩

def issueW2 : RepoIssue :=
  ⟨"s", "t", "d", "high", 0, "u", ∅, 50, ∅⟩

def issueHigh1 : RepoIssue :=
  ⟨"Arch Linux News", "x1", "", "high", 0, "u1", ∅, 100, ∅⟩

def issueHigh2 : RepoIssue :=
  ⟨"Arch Linux News", "x2", "", "high", 0, "u2", ∅, 100, ∅⟩

/-! ## Supporting lemmas -/

lemma titleSimilarity_nonneg (a b : String) : 0 ≤ titleSimilarity a b := by
  unfold titleSimilarity
  dsimp only
  split_ifs with h
  · exact le_refl 0
  · positivity

lemma titleSimilarity_le_one (a b : String) : titleSimilarity a b ≤ 1 := by
  unfold titleSimilarity
  dsimp only
  split_ifs with h
  · exact zero_le_one
  · push_neg at h
    have hun : (wordsOf a ∪ wordsOf b).Nonempty :=
      Finset.Nonempty.mono Finset.subset_union_left (Finset.nonempty_iff_ne_empty.mpr h.1)
    have hpos : (0 : ℚ) < ((wordsOf a ∪ wordsOf b).card : ℚ) := by
      exact_mod_cast Finset.card_pos.mpr hun
    rw [div_le_one hpos]
    exact_mod_cast Finset.card_le_card
      (Finset.Subset.trans Finset.inter_subset_left Finset.subset_union_left)

lemma titleSimilarity_comm (a b : String) : titleSimilarity a b = titleSimilarity b a := by
  unfold titleSimilarity
  by_cases h : wordsOf a = ∅ ∨ wordsOf b = ∅
  · rw [if_pos h, if_pos h.symm]
  · rw [if_neg h, if_neg (fun hc => h hc.symm)]
    rw [Finset.inter_comm, Finset.union_comm]

/-! ## C10: title similarity is symmetric, bounded in `[0,1]`, and zero on
empty word sets -/

/-- C10: the shared Jaccard title similarity is symmetric, always lies in
`[0, 1]`, and returns exactly `0` whenever either title has no word tokens
after lower-casing and stripping non-word characters. -/
theorem title_similarity_symm_bounded (a b : String) :
    titleSimilarity a b = titleSimilarity b a ∧
    0 ≤ titleSimilarity a b ∧ titleSimilarity a b ≤ 1 ∧
    (wordsOf a = ∅ ∨ wordsOf b = ∅ → titleSimilarity a b = 0) := by
  refine ⟨titleSimilarity_comm a b, titleSimilarity_nonneg a b, titleSimilarity_le_one a b, ?_⟩
  intro h
  unfold titleSimilarity
  rw [if_pos h]

/-- C10 witness: concrete evaluation of the empty-word-set case. -/
theorem title_similarity_symm_bounded_witness :
    (wordsOf "!!!" = ∅ ∨ wordsOf "linux broke" = ∅) ∧
    titleSimilarity "!!!" "linux broke" = 0 :=
  ⟨Or.inl (by decide), (title_similarity_symm_bounded "!!!" "linux broke").2.2.2 (Or.inl (by decide))⟩

/-! ## C7: deduplication is idempotent -/

lemma dedupCore_sublist {α : Type} (ttl : α → String) :
    ∀ (l : List α) (seen : List String), List.Sublist (dedupCore ttl l seen) l := by
  intro l
  induction l with
  | nil => intro seen; simp [dedupCore]
  | cons x rest ih =>
    intro seen
    rw [dedupCore]
    split_ifs with h
    · exact List.Sublist.cons x (ih seen)
    · exact List.Sublist.cons₂ x (ih (seen ++ [ttl x]))

lemma dedupCore_idem {α : Type} (ttl : α → String) :
    ∀ (l : List α) (seen : List String),
      dedupCore ttl (dedupCore ttl l seen) seen = dedupCore ttl l seen := by
  intro l
  induction l with
  | nil => intro seen; simp [dedupCore]
  | cons x rest ih =>
    intro seen
    rw [dedupCore]
    split_ifs with h
    · exact ih seen
    · rw [dedupCore, if_neg h, ih (seen ++ [ttl x])]

instance : IsTotal RepoIssue (fun a b => b.confidence_score ≤ a.confidence_score) :=
  ⟨fun a b => le_total b.confidence_score a.confidence_score⟩

instance : IsTrans RepoIssue (fun a b => b.confidence_score ≤ a.confidence_score) :=
  ⟨fun _ _ _ hab hbc => le_trans hbc hab⟩

instance : IsTotal PotentialFix (fun a b => b.date ≤ a.date) :=
  ⟨fun a b => le_total b.date a.date⟩

instance : IsTrans PotentialFix (fun a b => b.date ≤ a.date) :=
  ⟨fun _ _ _ hab hbc => le_trans hbc hab⟩

/-- C7: deduplication is idempotent on both homogeneous variants — running
`_deduplicate` on its own output removes nothing and returns it unchanged. -/
theorem deduplicate_idempotent :
    (∀ l : List RepoIssue, deduplicateIssues (deduplicateIssues l) = deduplicateIssues l) ∧
    (∀ l : List PotentialFix, deduplicateFixes (deduplicateFixes l) = deduplicateFixes l) := by
  constructor
  · intro l
    unfold deduplicateIssues
    have hsorted :
        List.Sorted (fun a b : RepoIssue => b.confidence_score ≤ a.confidence_score)
          (List.insertionSort (fun a b => b.confidence_score ≤ a.confidence_score) l) :=
      List.sorted_insertionSort _ l
    have hsorted2 :
        List.Sorted (fun a b : RepoIssue => b.confidence_score ≤ a.confidence_score)
          (dedupCore (fun i => i.title)
            (List.insertionSort (fun a b => b.confidence_score ≤ a.confidence_score) l) []) :=
      List.Pairwise.sublist (dedupCore_sublist _ _ _) hsorted
    rw [List.Sorted.insertionSort_eq hsorted2]
    exact dedupCore_idem _ _ _
  · intro l
    unfold deduplicateFixes
    have hsorted :
        List.Sorted (fun a b : PotentialFix => b.date ≤ a.date)
          (List.insertionSort (fun a b => b.date ≤ a.date) l) :=
      List.sorted_insertionSort _ l
    have hsorted2 :
        List.Sorted (fun a b : PotentialFix => b.date ≤ a.date)
          (dedupCore (fun f => f.title)
            (List.insertionSort (fun a b => b.date ≤ a.date) l) []) :=
      List.Pairwise.sublist (dedupCore_sublist _ _ _) hsorted
    rw [List.Sorted.insertionSort_eq hsorted2]
    exact dedupCore_idem _ _ _

/-! ## C8: fix detection precedence (corrected)

The claim says a fix marker in *title or body* forces a `Fix`; the code
checks explicit markers against the lower-cased title only
(`_is_potential_fix(lower_title, full_text)`), so a record whose body alone
carries `[solved]` is not recognized as a fix. -/

/-- C8 counterexample: the body `"[solved]"` matches an explicit fix marker,
yet `_process_entry` emits neither a Fix nor a Problem for it. -/
theorem fix_marker_in_body_not_fix :
    explicitFixMarkers.any (fun m => containsStr m "[solved]") = true ∧
    processEntry "s" "na" "[solved]" 0 "u" 50 = (none, none) := by
  constructor
  · decide
  · decide

/-- C8 amended: explicit fix markers are detected in the (lower-cased)
title only, while fix-action keywords are detected in the full text
(title plus body); whenever either holds, the Record Builder emits a Fix
and never a Problem, skipping severity classification. -/
theorem fix_detection_amended (name title fullContent : String) (date : ℤ) (url : String)
    (conf : ℤ)
    (h : explicitFixMarkers.any (fun m => containsStr m (strLower title)) = true ∨
      fixKeywords.any
        (fun k => containsStr k (strLower title ++ " " ++ strLower fullContent)) = true) :
    processEntry name title fullContent date url conf =
      (none, some ⟨name, title, date, url,
        extractPackages (strLower title ++ " " ++ strLower fullContent),
        getSemanticGroups (strLower title ++ " " ++ strLower fullContent)⟩) := by
  have hfix : isPotentialFix (strLower title)
      (strLower title ++ " " ++ strLower fullContent) = true := by
    unfold isPotentialFix
    rcases h with h | h <;> simp [h]
  unfold processEntry
  dsimp only
  rw [if_pos hfix]

/-- C8 witness: the fix-precedence scenario — a `[SOLVED]` title is emitted
as a Fix (and no Problem), although the text also contains problem
keywords. -/
theorem fix_detection_amended_witness :
    processEntry "Arch Forums" "[SOLVED] audio crackling fixed" "audio was broken" 3 "u" 50 =
      (none, some ⟨"Arch Forums", "[SOLVED] audio crackling fixed", 3, "u",
        extractPackages (strLower "[SOLVED] audio crackling fixed" ++ " " ++
          strLower "audio was broken"),
        getSemanticGroups (strLower "[SOLVED] audio crackling fixed" ++ " " ++
          strLower "audio was broken")⟩) :=
  fix_detection_amended "Arch Forums" "[SOLVED] audio crackling fixed" "audio was broken"
    3 "u" 50 (Or.inl (by decide))

/-! ## C9: totality and well-formedness of the classification functions -/

/-- The four severity strings of the source. -/
def severityTiers : List String :=
  ["low", "medium", "high", "critical"]

lemma sevBoot_sev_mem (text source : String) : (sevBoot text source).sev ∈ severityTiers := by
  unfold sevBoot
  cases criticalBootFailure.find? (fun k => containsStr k text) with
  | none => exact show "low" ∈ severityTiers by decide
  | some k =>
    dsimp only
    split_ifs <;>
      first
      | exact show "high" ∈ severityTiers by decide
      | exact show "critical" ∈ severityTiers by decide

lemma sevKernelUpgrade_sev_mem (a : Bool) (kw : Option String) (st : SevState)
    (h : st.sev ∈ severityTiers) : (sevKernelUpgrade a kw st).sev ∈ severityTiers := by
  unfold sevKernelUpgrade
  split_ifs <;>
    first
    | exact h
    | exact show "critical" ∈ severityTiers by decide

lemma sevEscalate_sev_mem (pkgs : Finset String) (a b : Bool) (st : SevState)
    (h : st.sev ∈ severityTiers) : (sevEscalate pkgs a b st).sev ∈ severityTiers := by
  unfold sevEscalate
  dsimp only
  split_ifs <;>
    first
    | exact h
    | exact show "low" ∈ severityTiers by decide
    | exact show "medium" ∈ severityTiers by decide
    | exact show "high" ∈ severityTiers by decide

lemma sevAppDowngrade_sev_mem (text : String) (pkgs : Finset String) (st : SevState)
    (h : st.sev ∈ severityTiers) : (sevAppDowngrade text pkgs st).sev ∈ severityTiers := by
  unfold sevAppDowngrade
  dsimp only
  split_ifs <;>
    first
    | exact h
    | exact show "low" ∈ severityTiers by decide
    | exact show "medium" ∈ severityTiers by decide

lemma sevHelpAdjust_sev_mem (text : String) (st : SevState)
    (h : st.sev ∈ severityTiers) : (sevHelpAdjust text st).sev ∈ severityTiers := by
  unfold sevHelpAdjust
  dsimp only
  split_ifs <;>
    first
    | exact h
    | exact show "low" ∈ severityTiers by decide
    | exact show "medium" ∈ severityTiers by decide

lemma getSeverity_sev_mem (text title source : String) :
    (getSeverity text title source).1 ∈ severityTiers := by
  unfold getSeverity
  dsimp only
  split_ifs <;>
    first
    | exact show "low" ∈ severityTiers by decide
    | exact sevHelpAdjust_sev_mem _ _ (sevAppDowngrade_sev_mem _ _ _
        (sevEscalate_sev_mem _ _ _ _ (sevKernelUpgrade_sev_mem _ _ _ (sevBoot_sev_mem _ _))))
    | exact sevHelpAdjust_sev_mem _ _ (sevAppDowngrade_sev_mem _ _ _
        (sevKernelUpgrade_sev_mem _ _ _ (sevBoot_sev_mem _ _)))

/-- C9: the classification functions are total with well-formed results on
every string input: severity classification always lands in the four-tier
enumeration, semantic tagging only ever emits the seven configured tags,
the Jaccard denominator is strictly positive whenever the division branch
is reached (no division by zero), and package extraction never yields a
purely numeric token. -/
theorem classification_functions_total :
    (∀ text title source : String, (getSeverity text title source).1 ∈ severityTiers) ∧
    (∀ text : String, getSemanticGroups text ⊆ semanticGroupNames.toFinset) ∧
    (∀ a b : String, wordsOf a ≠ ∅ → wordsOf b ≠ ∅ →
      (0 : ℚ) < ((wordsOf a ∪ wordsOf b).card : ℚ)) ∧
    (∀ (text p : String), p ∈ extractPackages text → isDigitStr p = false) := by
  refine ⟨getSeverity_sev_mem, ?_, ?_, ?_⟩
  · intro text x hx
    simp only [getSemanticGroups, List.mem_toFinset, List.mem_map] at hx
    obtain ⟨g, hg, rfl⟩ := hx
    simp only [semanticGroupNames, List.mem_toFinset, List.mem_map]
    exact ⟨g, (List.mem_filter.mp hg).1, rfl⟩
  · intro a b ha _
    have hun : (wordsOf a ∪ wordsOf b).Nonempty :=
      Finset.Nonempty.mono Finset.subset_union_left (Finset.nonempty_iff_ne_empty.mpr ha)
    exact_mod_cast Finset.card_pos.mpr hun
  · intro text p hp
    unfold extractPackages at hp
    dsimp only at hp
    rw [Finset.mem_union] at hp
    rcases hp with hp | hp
    · rw [List.mem_toFinset, List.mem_filter] at hp
      have hall : ∀ q ∈ allKnownPackages, isDigitStr q = false := by decide
      exact hall p hp.1
    · rw [Finset.mem_filter] at hp
      exact Bool.not_eq_true _ ▸ (eq_false_of_ne_true (by exact fun hc => hp.2.2.2 hc))

/-- C9 witness: concrete instances of the hypothesis-bearing parts. -/
theorem classification_functions_total_witness :
    wordsOf "ab" ≠ ∅ ∧ wordsOf "cd" ≠ ∅ ∧
    (0 : ℚ) < ((wordsOf "ab" ∪ wordsOf "cd").card : ℚ) ∧
    "mesa" ∈ extractPackages "issue with mesa" ∧ isDigitStr "mesa" = false :=
  ⟨by decide, by decide,
    classification_functions_total.2.2.1 "ab" "cd" (by decide) (by decide),
    by decide,
    classification_functions_total.2.2.2 "issue with mesa" "mesa" (by decide)⟩

/-! ## Correlator lemmas -/

lemma findBestFix_acc_or (score : PotentialFix → ℚ) (d : ℤ) (used : List String) :
    ∀ (l : List PotentialFix) (acc : Option PotentialFix × ℚ) (f : PotentialFix),
      (findBestFix score d used l acc).1 = some f →
      acc.1 = some f ∨ (f ∈ l ∧ ¬(f.date < d) ∧ f.url ∉ used) := by
  intro l
  induction l with
  | nil => intro acc f h; exact Or.inl h
  | cons g rest ih =>
    intro acc f h
    rw [findBestFix] at h
    split_ifs at h with h1 h2
    · rcases ih acc f h with h' | ⟨hm, hd, hu⟩
      · exact Or.inl h'
      · exact Or.inr ⟨List.mem_cons_of_mem g hm, hd, hu⟩
    · rcases ih (some g, score g) f h with h' | ⟨hm, hd, hu⟩
      · rw [Option.some.injEq] at h'
        subst h'
        push_neg at h1
        exact Or.inr ⟨List.mem_cons_self g rest, not_lt.mpr h1.1, h1.2⟩
      · exact Or.inr ⟨List.mem_cons_of_mem g hm, hd, hu⟩
    · rcases ih acc f h with h' | ⟨hm, hd, hu⟩
      · exact Or.inl h'
      · exact Or.inr ⟨List.mem_cons_of_mem g hm, hd, hu⟩

lemma findBestFix_isSome (score : PotentialFix → ℚ) (d : ℤ) (used : List String) :
    ∀ (l : List PotentialFix) (acc : Option PotentialFix × ℚ),
      acc.1.isSome → ((findBestFix score d used l acc).1).isSome := by
  intro l
  induction l with
  | nil => intro acc h; exact h
  | cons g rest ih =>
    intro acc h
    rw [findBestFix]
    split_ifs with h1 h2
    · exact ih acc h
    · exact ih (some g, score g) rfl
    · exact ih acc h

lemma findBestFix_none_snd (score : PotentialFix → ℚ) (d : ℤ) (used : List String) :
    ∀ (l : List PotentialFix) (acc : Option PotentialFix × ℚ),
      (findBestFix score d used l acc).1 = none →
      (findBestFix score d used l acc).2 = acc.2 := by
  intro l
  induction l with
  | nil => intro acc _; rfl
  | cons g rest ih =>
    intro acc h
    rw [findBestFix] at h ⊢
    split_ifs at h ⊢ with h1 h2
    · exact ih acc h
    · exact absurd (findBestFix_isSome score d used rest (some g, score g) rfl)
        (by rw [h]; exact fun hc => Bool.noConfusion hc)
    · exact ih acc h

lemma findBestFix_snd_mono (score : PotentialFix → ℚ) (d : ℤ) (used : List String) :
    ∀ (l : List PotentialFix) (acc : Option PotentialFix × ℚ),
      acc.2 ≤ (findBestFix score d used l acc).2 := by
  intro l
  induction l with
  | nil => intro acc; exact le_refl _
  | cons g rest ih =>
    intro acc
    rw [findBestFix]
    split_ifs with h1 h2
    · exact ih acc
    · exact le_trans (le_of_lt h2) (ih (some g, score g))
    · exact ih acc

lemma findBestFix_ge (score : PotentialFix → ℚ) (d : ℤ) (used : List String) :
    ∀ (l : List PotentialFix) (acc : Option PotentialFix × ℚ) (f : PotentialFix),
      f ∈ l → ¬(f.date < d) → f.url ∉ used →
      score f ≤ (findBestFix score d used l acc).2 := by
  intro l
  induction l with
  | nil => intro acc f hm; exact absurd hm (List.not_mem_nil f)
  | cons g rest ih =>
    intro acc f hm hd hu
    rw [findBestFix]
    rcases List.mem_cons.mp hm with rfl | hm'
    · rw [if_neg (by push_neg; exact ⟨not_lt.mp hd, hu⟩)]
      split_ifs with h2
      · exact findBestFix_snd_mono score d used rest (some f, score f)
      · exact le_trans (not_lt.mp h2) (findBestFix_snd_mono score d used rest acc)
    · split_ifs with h1 h2
      · exact ih acc f hm' hd hu
      · exact ih (some g, score g) f hm' hd hu
      · exact ih acc f hm' hd hu

lemma findBestFix_le (score : PotentialFix → ℚ) (d : ℤ) (used : List String) (B : ℚ)
    (hB : ∀ g, score g ≤ B) :
    ∀ (l : List PotentialFix) (acc : Option PotentialFix × ℚ),
      acc.2 ≤ B → (findBestFix score d used l acc).2 ≤ B := by
  intro l
  induction l with
  | nil => intro acc h; exact h
  | cons g rest ih =>
    intro acc h
    rw [findBestFix]
    split_ifs with h1 h2
    · exact ih acc h
    · exact ih (some g, score g) (hB g)
    · exact ih acc h

/-- The threshold-comparison invariant for the inner fix loop: run 1 uses the
lower threshold and the larger set of consumed URLs. If run 2 settles on a
fix not consumed by run 1, then run 1 settles on the same fix. -/
lemma findBestFix_thr (score : PotentialFix → ℚ) (d : ℤ) :
    ∀ (l : List PotentialFix) (used1 used2 : List String)
      (b1 b2 : Option PotentialFix) (h1 h2 : ℚ),
      (∀ u, u ∈ used2 → u ∈ used1) → h1 ≤ h2 →
      (∀ g, b2 = some g → g.url ∉ used1 → b1 = some g ∧ h2 ≤ h1) →
      ∀ f, (findBestFix score d used2 l (b2, h2)).1 = some f → f.url ∉ used1 →
        (findBestFix score d used1 l (b1, h1)).1 = some f := by
  intro l
  induction l with
  | nil =>
    intro used1 used2 b1 b2 h1 h2 hsub hle hinv f hf hfu
    exact (hinv f hf hfu).1
  | cons g rest ih =>
    intro used1 used2 b1 b2 h1 h2 hsub hle hinv f hf hfu
    by_cases hg2 : g.date < d ∨ g.url ∈ used2
    · have hg1 : g.date < d ∨ g.url ∈ used1 := by
        rcases hg2 with h | h
        · exact Or.inl h
        · exact Or.inr (hsub _ h)
      rw [findBestFix, if_pos hg2] at hf
      rw [findBestFix, if_pos hg1]
      exact ih used1 used2 b1 b2 h1 h2 hsub hle hinv f hf hfu
    · have hgd : ¬g.date < d := fun hc => hg2 (Or.inl hc)
      have hgu2 : g.url ∉ used2 := fun hc => hg2 (Or.inr hc)
      by_cases hg1m : g.url ∈ used1
      · rw [findBestFix, if_pos (Or.inr hg1m)]
        rw [findBestFix, if_neg hg2] at hf
        by_cases hup : h2 < score g
        · rw [if_pos hup] at hf
          refine ih used1 used2 b1 (some g) h1 (score g) hsub
            (le_of_lt (lt_of_le_of_lt hle hup)) ?_ f hf hfu
          intro g' hg' hg'u
          rw [Option.some.injEq] at hg'
          exact absurd (hg' ▸ hg1m) hg'u
        · rw [if_neg hup] at hf
          exact ih used1 used2 b1 b2 h1 h2 hsub hle hinv f hf hfu
      · have hg1 : ¬(g.date < d ∨ g.url ∈ used1) := by
          push_neg
          exact ⟨not_lt.mp hgd, hg1m⟩
        rw [findBestFix, if_neg hg1]
        rw [findBestFix, if_neg hg2] at hf
        by_cases hup2 : h2 < score g
        · have hup1 : h1 < score g := lt_of_le_of_lt hle hup2
          rw [if_pos hup2] at hf
          rw [if_pos hup1]
          refine ih used1 used2 (some g) (some g) (score g) (score g) hsub le_rfl ?_ f hf hfu
          intro g' hg' _
          exact ⟨hg', le_rfl⟩
        · rw [if_neg hup2] at hf
          by_cases hup1 : h1 < score g
          · rw [if_pos hup1]
            refine ih used1 used2 (some g) b2 (score g) h2 hsub (not_lt.mp hup2) ?_ f hf hfu
            intro g' hb2 hg'u
            rcases hinv g' hb2 hg'u with ⟨_, hh⟩
            exact absurd (lt_of_lt_of_le hup1 (le_trans (not_lt.mp hup2) hh))
              (lt_irrefl h1)
          · rw [if_neg hup1]
            exact ih used1 used2 b1 b2 h1 h2 hsub hle hinv f hf hfu

lemma perm_middle_snoc {α : Type} (A B : List α) (x : α) :
    ((A ++ [x]) ++ B).Perm ((A ++ B) ++ [x]) := by
  rw [List.append_assoc A [x] B, List.append_assoc A B [x]]
  exact List.Perm.append_left A List.perm_append_comm

lemma finalScore_le_one (issue : RepoIssue) : ∀ f, finalScore issue f ≤ 1 := by
  intro f
  unfold finalScore
  split_ifs
  · exact le_refl 1
  · unfold calcCorrelationScore
    dsimp only
    exact max_le (by norm_num) (min_le_left _ _)

/-- A settled best fix is eligible: not earlier than the issue and not
consumed. -/
lemma bestFixFor_some (thr : ℚ) (fixes : List PotentialFix) (used : List String)
    (issue : RepoIssue) (f : PotentialFix)
    (h : (bestFixFor thr fixes used issue).1 = some f) :
    ¬(f.date < issue.date) ∧ f.url ∉ used := by
  rcases findBestFix_acc_or (finalScore issue) issue.date used _ (none, thr) f h with
    h' | ⟨_, hd, hu⟩
  · exact Option.noConfusion h'
  · exact ⟨hd, hu⟩

lemma correlateStep_used_mono (thr : ℚ) (fixes : List PotentialFix) (st : CorState)
    (issue : RepoIssue) :
    ∀ u ∈ st.usedUrls, u ∈ (correlateStep thr fixes st issue).usedUrls := by
  intro u hu
  cases hb : bestFixFor thr fixes st.usedUrls issue with
  | mk b s =>
    cases b with
    | none => rw [correlateStep, hb]; exact hu
    | some f => rw [correlateStep, hb]; exact List.mem_append_left _ hu

/-- The single-run fold invariant: consumed URLs are exactly the resolved fix
URLs and are pairwise distinct, every resolution respects the date ordering,
and resolved issues together with unresolved issues are a permutation of the
accumulated input. -/
lemma correlate_fold_inv (thr : ℚ) (fixes : List PotentialFix) :
    ∀ (l : List RepoIssue) (st : CorState),
      st.usedUrls.Nodup →
      st.resolved.map (fun r => r.fix.url) = st.usedUrls →
      (∀ r ∈ st.resolved, r.issue.date ≤ r.fix.date) →
      ((l.foldl (correlateStep thr fixes) st).usedUrls.Nodup ∧
       (l.foldl (correlateStep thr fixes) st).resolved.map (fun r => r.fix.url) =
         (l.foldl (correlateStep thr fixes) st).usedUrls ∧
       (∀ r ∈ (l.foldl (correlateStep thr fixes) st).resolved, r.issue.date ≤ r.fix.date) ∧
       ((l.foldl (correlateStep thr fixes) st).resolved.map (fun r => r.issue) ++
         (l.foldl (correlateStep thr fixes) st).unresolved).Perm
         ((st.resolved.map (fun r => r.issue) ++ st.unresolved) ++ l)) := by
  intro l
  induction l with
  | nil =>
    intro st h1 h2 h3
    exact ⟨h1, h2, h3, by simp⟩
  | cons i rest ih =>
    intro st h1 h2 h3
    rw [List.foldl_cons]
    have hstep : (correlateStep thr fixes st i).usedUrls.Nodup ∧
        (correlateStep thr fixes st i).resolved.map (fun r => r.fix.url) =
          (correlateStep thr fixes st i).usedUrls ∧
        (∀ r ∈ (correlateStep thr fixes st i).resolved, r.issue.date ≤ r.fix.date) ∧
        ((correlateStep thr fixes st i).resolved.map (fun r => r.issue) ++
          (correlateStep thr fixes st i).unresolved).Perm
          ((st.resolved.map (fun r => r.issue) ++ st.unresolved) ++ [i]) := by
      cases hb : bestFixFor thr fixes st.usedUrls i with
      | mk b s =>
        cases b with
        | none =>
          rw [correlateStep, hb]
          refine ⟨h1, h2, h3, ?_⟩
          dsimp only
          rw [← List.append_assoc]
        | some f =>
          obtain ⟨hfd, hfu⟩ := bestFixFor_some thr fixes st.usedUrls i f (by rw [hb])
          rw [correlateStep, hb]
          refine ⟨?_, ?_, ?_, ?_⟩
          · rw [List.nodup_append]
            refine ⟨h1, List.nodup_singleton _, ?_⟩
            intro x hx hx'
            rw [List.mem_singleton] at hx'
            subst hx'
            exact hfu hx
          · dsimp only
            rw [List.map_append, h2]
            rfl
          · intro r hr
            dsimp only at hr
            rcases List.mem_append.mp hr with hr' | hr'
            · exact h3 r hr'
            · rw [List.mem_singleton] at hr'
              subst hr'
              exact not_lt.mp hfd
          · dsimp only
            rw [List.map_append]
            simp only [List.map_cons, List.map_nil]
            exact perm_middle_snoc _ _ _
    obtain ⟨k1, k2, k3, k4⟩ := hstep
    obtain ⟨m1, m2, m3, m4⟩ := ih (correlateStep thr fixes st i) k1 k2 k3
    refine ⟨m1, m2, m3, m4.trans ?_⟩
    refine (k4.append_right rest).trans ?_
    rw [List.append_assoc]
    rfl

/-- Resolved count equals the number of consumed URLs. -/
lemma correlate_fold_len (thr : ℚ) (fixes : List PotentialFix) :
    ∀ (l : List RepoIssue) (st : CorState),
      st.resolved.length = st.usedUrls.length →
      (l.foldl (correlateStep thr fixes) st).resolved.length =
        (l.foldl (correlateStep thr fixes) st).usedUrls.length := by
  intro l
  induction l with
  | nil => intro st h; exact h
  | cons i rest ih =>
    intro st h
    rw [List.foldl_cons]
    apply ih
    cases hb : bestFixFor thr fixes st.usedUrls i with
    | mk b s =>
      cases b with
      | none => rw [correlateStep, hb]; exact h
      | some f =>
        rw [correlateStep, hb]
        dsimp only
        rw [List.length_append, List.length_append, h]
        rfl

/-- Raising the threshold only ever shrinks (never grows) the set of
consumed fix URLs, pointwise along the whole outer fold. -/
lemma correlate_fold_compare (fixes : List PotentialFix) (t1 t2 : ℚ) (ht : t1 ≤ t2) :
    ∀ (l : List RepoIssue) (st1 st2 : CorState),
      (∀ u, u ∈ st2.usedUrls → u ∈ st1.usedUrls) →
      ∀ u, u ∈ (l.foldl (correlateStep t2 fixes) st2).usedUrls →
        u ∈ (l.foldl (correlateStep t1 fixes) st1).usedUrls := by
  intro l
  induction l with
  | nil => intro st1 st2 hsub u hu; exact hsub u hu
  | cons i rest ih =>
    intro st1 st2 hsub
    rw [List.foldl_cons, List.foldl_cons]
    apply ih
    intro u hu
    cases hb2 : bestFixFor t2 fixes st2.usedUrls i with
    | mk b2 s2 =>
      cases b2 with
      | none =>
        rw [correlateStep, hb2] at hu
        exact correlateStep_used_mono t1 fixes st1 i u (hsub u hu)
      | some f2 =>
        rw [correlateStep, hb2] at hu
        dsimp only at hu
        rcases List.mem_append.mp hu with hu' | hu'
        · exact correlateStep_used_mono t1 fixes st1 i u (hsub u hu')
        · rw [List.mem_singleton] at hu'
          subst hu'
          by_cases hf1 : f2.url ∈ st1.usedUrls
          · exact correlateStep_used_mono t1 fixes st1 i _ hf1
          · have hb2fst : (bestFixFor t2 fixes st2.usedUrls i).1 = some f2 := by rw [hb2]
            have h1some : (bestFixFor t1 fixes st1.usedUrls i).1 = some f2 :=
              findBestFix_thr (finalScore i) i.date
                (List.insertionSort (fun a b : PotentialFix => a.date ≤ b.date) fixes)
                st1.usedUrls st2.usedUrls none none t1 t2 hsub ht
                (fun g hg _ => Option.noConfusion hg) f2 hb2fst hf1
            cases hb1 : bestFixFor t1 fixes st1.usedUrls i with
            | mk b1 s1 =>
              rw [hb1] at h1some
              dsimp only at h1some
              subst h1some
              rw [correlateStep, hb1]
              exact List.mem_append_right _ (List.mem_singleton_self _)

/-- Concrete evaluation of the inner loop on the witness pair (proved
symbolically: `ℚ` arithmetic is not kernel-computable). -/
lemma bestFixFor_witness_eq : bestFixFor 0.65 [fixW] [] issueW = (some fixW, 1) := by
  have hfs : finalScore issueW fixW = 1 := by
    unfold finalScore
    rw [if_pos (show overrideApplies issueW fixW = true by decide)]
  show findBestFix (finalScore issueW) issueW.date []
      (List.insertionSort (fun a b : PotentialFix => a.date ≤ b.date) [fixW]) (none, 0.65) = _
  rw [show List.insertionSort (fun a b : PotentialFix => a.date ≤ b.date) [fixW] = [fixW]
    from rfl]
  rw [findBestFix]
  split_ifs with h1 h2
  · exact absurd h1 (by decide)
  · rw [findBestFix, hfs]
  · exact absurd
      (show ((none : Option PotentialFix), (0.65 : ℚ)).2 < finalScore issueW fixW by
        rw [hfs]; norm_num) h2

/-- Concrete evaluation of one correlator step on the witness pair. -/
lemma correlateStep_witness_eq :
    correlateStep 0.65 [fixW] ⟨[], [], []⟩ issueW = ⟨[], [⟨issueW, fixW, 1⟩], [fixW.url]⟩ := by
  rw [correlateStep]
  dsimp only
  rw [bestFixFor_witness_eq]
  rfl

/-- Concrete evaluation of the full correlator run on the witness pair. -/
lemma correlateAndFilter_witness_eq :
    (correlateAndFilter [issueW] [fixW]).2 = [⟨issueW, fixW, 1⟩] := by
  show (List.foldl (correlateStep 0.65 [fixW]) ⟨[], [], []⟩
      (List.insertionSort (fun a b : RepoIssue => a.date ≤ b.date) [issueW])).resolved = _
  rw [show List.insertionSort (fun a b : RepoIssue => a.date ≤ b.date) [issueW] = [issueW]
    from rfl]
  rw [List.foldl_cons, List.foldl_nil, correlateStep_witness_eq]

/-! ## C1: the correlator is a global one-to-one matching -/

/-- C1: in every run of `_correlate_and_filter`, the resolved fixes are
pairwise distinct (no fix is consumed twice), the resolved issues together
with the unresolved issues are a permutation of the input (each input
problem is used exactly once), and when the input problems are pairwise
distinct no problem appears in two resolutions. -/
theorem correlator_matching_one_to_one (issues : List RepoIssue) (fixes : List PotentialFix) :
    ((correlateAndFilter issues fixes).2.map (fun r => r.fix)).Nodup ∧
    (((correlateAndFilter issues fixes).2.map (fun r => r.issue)) ++
      (correlateAndFilter issues fixes).1).Perm issues ∧
    (issues.Nodup → ((correlateAndFilter issues fixes).2.map (fun r => r.issue)).Nodup) := by
  obtain ⟨hnd, hmap, _, hperm⟩ :=
    correlate_fold_inv 0.65 fixes
      (List.insertionSort (fun a b : RepoIssue => a.date ≤ b.date) issues) ⟨[], [], []⟩
      List.nodup_nil rfl (fun r hr => absurd hr (List.not_mem_nil r))
  have hpermIssues :
      (((correlateAndFilter issues fixes).2.map (fun r => r.issue)) ++
        (correlateAndFilter issues fixes).1).Perm issues := by
    refine (hperm.trans ?_)
    simpa using List.perm_insertionSort (fun a b : RepoIssue => a.date ≤ b.date) issues
  refine ⟨?_, hpermIssues, ?_⟩
  · apply List.Nodup.of_map (fun f : PotentialFix => f.url)
    rw [List.map_map]
    exact hmap ▸ hnd
  · intro h
    have hall := (hpermIssues.nodup_iff).mpr h
    exact (List.nodup_append.mp hall).1

/-- C1 witness: a concrete run with pairwise distinct input problems. -/
theorem correlator_matching_one_to_one_witness :
    ([issueW2] : List RepoIssue).Nodup ∧
    ((correlateAndFilter [issueW2] []).2.map (fun r => r.issue)).Nodup :=
  ⟨by decide, (correlator_matching_one_to_one [issueW2] []).2.2 (by decide)⟩

/-! ## C2: resolutions never pair a fix published before its problem -/

/-- C2: every resolution produced by `_correlate_and_filter` — including
those produced through the exact-reference override, which is scored inside
the same date-guarded loop — satisfies
`fix.published_at ≥ problem.published_at`. -/
theorem resolution_date_ordering (issues : List RepoIssue) (fixes : List PotentialFix)
    (r : ResolvedIssue) (hr : r ∈ (correlateAndFilter issues fixes).2) :
    r.issue.date ≤ r.fix.date := by
  obtain ⟨_, _, hord, _⟩ :=
    correlate_fold_inv 0.65 fixes
      (List.insertionSort (fun a b : RepoIssue => a.date ≤ b.date) issues) ⟨[], [], []⟩
      List.nodup_nil rfl (fun r hr => absurd hr (List.not_mem_nil r))
  exact hord r hr

/-- C2 witness: a run in which the exact-reference override produces the
resolution, whose dates are correctly ordered. -/
theorem resolution_date_ordering_witness :
    (⟨issueW, fixW, 1⟩ : ResolvedIssue) ∈ (correlateAndFilter [issueW] [fixW]).2 ∧
    (⟨issueW, fixW, 1⟩ : ResolvedIssue).issue.date ≤ (⟨issueW, fixW, 1⟩ : ResolvedIssue).fix.date :=
  ⟨by rw [correlateAndFilter_witness_eq]; exact List.mem_singleton_self _,
    resolution_date_ordering [issueW] [fixW] ⟨issueW, fixW, 1⟩
      (by rw [correlateAndFilter_witness_eq]; exact List.mem_singleton_self _)⟩

/-! ## C4: the exact-reference override forces score 1.0 and a resolution -/

/-- C4: when the problem URL yields a numeric reference identifier and an
eligible fix (not earlier than the problem, not yet consumed) references
that identifier in its title or carries it in its URL, the per-candidate
score is exactly `1.0` — bypassing the weighted formula — and the
correlator step resolves the problem with correlation score exactly `1.0`,
however dissimilar the titles are. -/
theorem exact_reference_override_scores_one (issue : RepoIssue) (fix : PotentialFix)
    (id : String) (hid : extractRefId issue.url = some id)
    (href : titleRefsId id fix.title = true ∨ containsStr id fix.url = true) :
    finalScore issue fix = 1 ∧
    ∀ (st : CorState) (fixes : List PotentialFix),
      fix ∈ fixes → ¬(fix.date < issue.date) → fix.url ∉ st.usedUrls →
      ∃ f, correlateStep 0.65 fixes st issue =
        ⟨st.unresolved, st.resolved ++ [⟨issue, f, 1⟩], st.usedUrls ++ [f.url]⟩ := by
  have hover : overrideApplies issue fix = true := by
    unfold overrideApplies
    rw [hid]
    rcases href with h | h <;> simp [h]
  have hscore : finalScore issue fix = 1 := by
    unfold finalScore
    rw [if_pos hover]
  refine ⟨hscore, ?_⟩
  intro st fixes hmem hdate hurl
  have hmem' : fix ∈ List.insertionSort (fun a b : PotentialFix => a.date ≤ b.date) fixes :=
    (List.mem_insertionSort _).mpr hmem
  have hge : (1 : ℚ) ≤ (bestFixFor 0.65 fixes st.usedUrls issue).2 := by
    have h := findBestFix_ge (finalScore issue) issue.date st.usedUrls _
      (none, (0.65 : ℚ)) fix hmem' hdate hurl
    rw [hscore] at h
    exact h
  have hle : (bestFixFor 0.65 fixes st.usedUrls issue).2 ≤ 1 :=
    findBestFix_le (finalScore issue) issue.date st.usedUrls 1 (finalScore_le_one issue) _
      (none, (0.65 : ℚ)) (by norm_num)
  have heq : (bestFixFor 0.65 fixes st.usedUrls issue).2 = 1 := le_antisymm hle hge
  cases hb : bestFixFor 0.65 fixes st.usedUrls issue with
  | mk b s =>
    cases b with
    | none =>
      exfalso
      have hsnd := findBestFix_none_snd (finalScore issue) issue.date st.usedUrls _
        (none, (0.65 : ℚ)) (by rw [show findBestFix (finalScore issue) issue.date st.usedUrls
          (List.insertionSort (fun a b : PotentialFix => a.date ≤ b.date) fixes)
          (none, (0.65 : ℚ)) = bestFixFor 0.65 fixes st.usedUrls issue from rfl, hb])
      rw [show findBestFix (finalScore issue) issue.date st.usedUrls
          (List.insertionSort (fun a b : PotentialFix => a.date ≤ b.date) fixes)
          (none, (0.65 : ℚ)) = bestFixFor 0.65 fixes st.usedUrls issue from rfl, heq] at hsnd
      norm_num at hsnd
    | some f =>
      have hs : s = 1 := by
        have h := heq
        rw [hb] at h
        exact h
      subst hs
      exact ⟨f, by rw [correlateStep, hb]⟩

/-- C4 witness: the spec scenario — problem URL containing `issues/482`,
fix title containing `Fixes #482`, textually dissimilar titles. -/
theorem exact_reference_override_scores_one_witness :
    extractRefId issueW.url = some "482" ∧
    titleRefsId "482" fixW.title = true ∧
    finalScore issueW fixW = 1 ∧
    correlateStep 0.65 [fixW] ⟨[], [], []⟩ issueW = ⟨[], [⟨issueW, fixW, 1⟩], [fixW.url]⟩ :=
  ⟨by decide, by decide,
    (exact_reference_override_scores_one issueW fixW "482" (by decide)
      (Or.inl (by decide))).1,
    correlateStep_witness_eq⟩

/-! ## C6: the number of resolutions is antitone in the threshold -/

/-- C6: for a fixed `(problems, fixes)` input, raising the correlation
threshold never increases the number of resolutions produced by the
correlator. -/
theorem resolution_count_antitone_in_threshold (issues : List RepoIssue)
    (fixes : List PotentialFix) (t1 t2 : ℚ) (ht : t1 ≤ t2) :
    (correlateWith t2 issues fixes).2.length ≤ (correlateWith t1 issues fixes).2.length := by
  have hsub :=
    correlate_fold_compare fixes t1 t2 ht
      (List.insertionSort (fun a b : RepoIssue => a.date ≤ b.date) issues)
      ⟨[], [], []⟩ ⟨[], [], []⟩ (fun u h => h)
  have hnd2 :=
    (correlate_fold_inv t2 fixes
      (List.insertionSort (fun a b : RepoIssue => a.date ≤ b.date) issues) ⟨[], [], []⟩
      List.nodup_nil rfl (fun r hr => absurd hr (List.not_mem_nil r))).1
  have hlen1 :=
    correlate_fold_len t1 fixes
      (List.insertionSort (fun a b : RepoIssue => a.date ≤ b.date) issues) ⟨[], [], []⟩ rfl
  have hlen2 :=
    correlate_fold_len t2 fixes
      (List.insertionSort (fun a b : RepoIssue => a.date ≤ b.date) issues) ⟨[], [], []⟩ rfl
  show (List.foldl (correlateStep t2 fixes) ⟨[], [], []⟩
      (List.insertionSort (fun a b : RepoIssue => a.date ≤ b.date) issues)).resolved.length ≤
    (List.foldl (correlateStep t1 fixes) ⟨[], [], []⟩
      (List.insertionSort (fun a b : RepoIssue => a.date ≤ b.date) issues)).resolved.length
  rw [hlen1, hlen2]
  exact (List.subperm_of_subset hnd2 (fun u hu => hsub u hu)).length_le

/-- C6 witness: concrete thresholds `0.65 ≤ 0.9` on a concrete input. -/
theorem resolution_count_antitone_in_threshold_witness :
    (0.65 : ℚ) ≤ 0.9 ∧
    (correlateWith 0.9 [issueW2] []).2.length ≤ (correlateWith 0.65 [issueW2] []).2.length :=
  ⟨by norm_num,
    resolution_count_antitone_in_threshold [issueW2] [] 0.65 0.9 (by norm_num)⟩

/-! ## C5: boot-failure severity by source type (corrected)

The claim says the same boot-failure text yields `critical` from an
official source and `high` from any other source. The code agrees on the
official side, but the later application-specific downgrade (lines
212-219) does not test the critical flag against the *community* result:
a community boot-failure text that also mentions a user-space application
(and implicates no critical system package) ends at `medium`, not
`high`. -/

lemma sevKernelUpgrade_of_crit (a : Bool) (kw : Option String) (st : SevState)
    (h : st.isCrit = true) : sevKernelUpgrade a kw st = st := by
  unfold sevKernelUpgrade
  exact if_neg (fun hc => hc.1 h)

lemma sevHelpAdjust_of_crit (text : String) (st : SevState) (h : st.isCrit = true) :
    sevHelpAdjust text st = st := by
  unfold sevHelpAdjust
  exact if_neg (fun hc => hc.2 h)

/-- C5 counterexample: `"kernel panic steam"` contains a critical-boot
phrase, comes from a community source, and is classified `medium`, not
`high` — the application-specific downgrade fires after the community
discount. -/
theorem severity_community_boot_not_always_high :
    criticalBootFailure.find? (fun k => containsStr k "kernel panic steam") =
      some "kernel panic" ∧
    "Reddit r/archlinux" ∈ communitySources ∧
    (getSeverity "kernel panic steam" "t" "Reddit r/archlinux").1 = "medium" :=
  ⟨by decide, by decide, by decide⟩

/-- C5 amended: on any text containing a critical-boot-failure phrase the
classifier returns `critical` whenever the source is not a community
source (in particular for every official source); for community sources it
returns `high`, further downgraded to `medium` exactly when the text also
contains a user-space-application keyword and no critical-system package
is extracted from it. -/
theorem severity_boot_phrase_amended (text title source : String) (k : String)
    (hb : criticalBootFailure.find? (fun p => containsStr p text) = some k) :
    (getSeverity text title source).1 =
      if source ∈ communitySources then
        (if (userSpaceApps.any (fun a => containsStr a text)) = true ∧
            ¬(criticalSystemPackages.any (fun p => p ∈ extractPackages text)) = true
         then "medium" else "high")
      else "critical" := by
  unfold getSeverity
  dsimp only
  by_cases hsrc : source ∈ communitySources
  · have hboot : sevBoot text source =
        ⟨"high", "Найдена фраза о серьезной проблеме: " ++ k ++ ". Источник - сообщество.",
         true⟩ := by
      unfold sevBoot
      rw [hb]
      exact if_pos hsrc
    rw [hboot, sevKernelUpgrade_of_crit _ _ _ rfl]
    rw [if_neg (fun hc => hc.2 rfl), if_neg (fun hc => hc rfl)]
    unfold sevAppDowngrade
    dsimp only
    by_cases happ : (userSpaceApps.any (fun a => containsStr a text)) = true
    · rw [if_pos ⟨Or.inl rfl, happ⟩]
      by_cases hcrit : (criticalSystemPackages.any (fun p => p ∈ extractPackages text)) = true
      · rw [if_neg (fun hc => hc hcrit)]
        rw [sevHelpAdjust_of_crit _ _ rfl]
        rw [if_pos hsrc, if_neg (fun hc => hc.2 hcrit)]
      · rw [if_pos hcrit]
        rw [sevHelpAdjust_of_crit _ _ rfl]
        rw [if_pos hsrc, if_pos (And.intro happ hcrit)]
        rfl
    · rw [if_neg (fun hc => happ hc.2)]
      rw [sevHelpAdjust_of_crit _ _ rfl]
      rw [if_pos hsrc, if_neg (fun hc => happ hc.1)]
  · have hboot : sevBoot text source =
        ⟨"critical", "Найдена критическая фраза в официальном источнике: " ++ k ++ ".",
         true⟩ := by
      unfold sevBoot
      rw [hb]
      exact if_neg hsrc
    rw [hboot, sevKernelUpgrade_of_crit _ _ _ rfl]
    rw [if_neg (fun hc => hc.2 rfl), if_neg (fun hc => hc rfl)]
    have happ : sevAppDowngrade text (extractPackages text)
        ⟨"critical", "Найдена критическая фраза в официальном источнике: " ++ k ++ ".",
         true⟩ =
        ⟨"critical", "Найдена критическая фраза в официальном источнике: " ++ k ++ ".",
         true⟩ := by
      unfold sevAppDowngrade
      dsimp only
      rw [if_neg]
      intro hc
      rcases hc.1 with h | h
      · exact absurd h (by decide)
      · exact absurd h (by decide)
    rw [happ, sevHelpAdjust_of_crit _ _ rfl]
    rw [if_neg hsrc]

/-- C5 witness: the two scenario instances of the amended claim — same
boot-failure text, `high` from a community source, `critical` from an
official one. -/
theorem severity_boot_phrase_amended_witness :
    criticalBootFailure.find? (fun p => containsStr p "kernel panic xz") =
      some "kernel panic" ∧
    (getSeverity "kernel panic xz" "t" "Reddit r/archlinux").1 = "high" ∧
    (getSeverity "kernel panic xz" "t" "Arch Linux News").1 = "critical" := by
  refine ⟨by decide, ?_, ?_⟩
  · rw [severity_boot_phrase_amended "kernel panic xz" "t" "Reddit r/archlinux" "kernel panic"
      (by decide)]
    decide
  · rw [severity_boot_phrase_amended "kernel panic xz" "t" "Arch Linux News" "kernel panic"
      (by decide)]
    decide

/-! ## C3: the risk level ladder is strict, and the 100-point boundary is
RISKY -/

lemma maxPkgWeight_empty : maxPkgWeight ∅ = 1 := by
  unfold maxPkgWeight
  rw [dif_neg Finset.not_nonempty_empty]

lemma issueDanger_high1 : issueDanger 0 issueHigh1 = 50 := by
  unfold issueDanger issueHigh1
  dsimp only
  rw [if_neg (fun hc => absurd hc.1 (by decide))]
  rw [show severityBase "high" = 25 from by
    unfold severityBase; rw [if_neg (by decide), if_pos rfl]]
  rw [show sourceTrustWeight "Arch Linux News" = 2.0 from by
    unfold sourceTrustWeight; rw [if_pos rfl]]
  rw [maxPkgWeight_empty]
  rw [show ((((0 : ℤ) - 0 : ℤ)) : ℝ) / 86400 = 0 from by norm_num]
  rw [Real.rpow_zero]
  norm_num

lemma issueDanger_high2 : issueDanger 0 issueHigh2 = 50 := by
  unfold issueDanger issueHigh2
  dsimp only
  rw [if_neg (fun hc => absurd hc.1 (by decide))]
  rw [show severityBase "high" = 25 from by
    unfold severityBase; rw [if_neg (by decide), if_pos rfl]]
  rw [show sourceTrustWeight "Arch Linux News" = 2.0 from by
    unfold sourceTrustWeight; rw [if_pos rfl]]
  rw [maxPkgWeight_empty]
  rw [show ((((0 : ℤ) - 0 : ℤ)) : ℝ) / 86400 = 0 from by norm_num]
  rw [Real.rpow_zero]
  norm_num

lemma dangerScore_boundary : dangerScore 0 [issueHigh1, issueHigh2] = 100 := by
  unfold dangerScore
  rw [List.map_cons, List.map_cons, List.map_nil, List.sum_cons, List.sum_cons, List.sum_nil,
    issueDanger_high1, issueDanger_high2]
  norm_num

/-- C3: the risk aggregator maps the summed danger score to a level through
the strict ladder `>100 / >55 / >25`, and in particular two unresolved
high-severity problems from a trust-2.0 source at confidence 100, age 0 and
package weight 1.0 sum to exactly 100, which reports `RISKY`, not
`DANGEROUS`. -/
theorem risk_level_thresholds_and_boundary :
    (∀ (now : ℤ) (issues : List RepoIssue),
      (analyzeUpdateSafety now issues).level =
        (if 100 < dangerScore now issues then "DANGEROUS"
         else if 55 < dangerScore now issues then "RISKY"
         else if 25 < dangerScore now issues then "CAUTION" else "SAFE")) ∧
    dangerScore 0 [issueHigh1, issueHigh2] = 100 ∧
    (analyzeUpdateSafety 0 [issueHigh1, issueHigh2]).level = "RISKY" := by
  refine ⟨fun now issues => rfl, dangerScore_boundary, ?_⟩
  show safetyLevel (dangerScore 0 [issueHigh1, issueHigh2]) = "RISKY"
  rw [dangerScore_boundary]
  unfold safetyLevel
  rw [if_neg (by norm_num), if_pos (by norm_num)]

end ArchMonitor
